import Mathlib

/-!
Verification of the ngrx-orchestrator core (`src/index.ts`): the action-group
synthesizer `createDataFlowActions`, the dotted-path resolver
(`getNestedState`, `getNestedStatePathName`), and the four reducer handlers
built by `onActionGroup`.

JavaScript runtime values are embedded as the inductive `Val`; a JavaScript
exception (TypeError on property access of `undefined`/`null`, or a strict
mode write failure) is embedded as `none` in `Option Val`.
-/

namespace NgrxOrchestrator

/-- Embedding of the JavaScript values the state tree is made of.
`vundefined` is the JavaScript value `undefined`.  Objects are insertion-ordered
association lists, as JavaScript objects are for string keys.  Function
values never occur inside a state tree handled by this library and are not
represented. -/
inductive Val where
  | vundefined : Val
  | vnull : Val
  | vbool (b : Bool) : Val
  | vnum (n : Int) : Val
  | vstr (s : String) : Val
  | varr (elems : List Val) : Val
  | vobj (fields : List (String × Val)) : Val

/-- `config.source` / `config.action` of `GroupedActionsConfig` (src/index.ts
lines 30-33). -/
structure GroupedActionsConfig where
  source : String
  action : String
deriving DecidableEq, Repr

/-- The four action type identifiers produced by `createDataFlowActions`.
The ngrx `createAction` wrapper only tags the handler with this identifier
string, so the embedding keeps just the identifiers. -/
structure DataFlowActionIds where
  load : String
  loadSuccess : String
  loadFailure : String
  reset : String
deriving DecidableEq, Repr

/-- `createDataFlowActions` (src/index.ts lines 38-58): derives the four
action identifiers from the configuration by template-string concatenation. -/
def createDataFlowActions (config : GroupedActionsConfig) : DataFlowActionIds where
  load := "[" ++ config.source ++ "] " ++ config.action
  loadSuccess := "[API] " ++ config.action ++ " Success"
  loadFailure := "[API] " ++ config.action ++ " Failure"
  reset := "[" ++ config.source ++ "] " ++ config.action ++ " Reset"

example : (createDataFlowActions ⟨"Todo", "Load todo list"⟩).load = "[Todo] Load todo list" := by decide

/-- Embedding of JavaScript `stateSelector.split('.')` for the one-character
separator used throughout the source: every occurrence of the dot starts a
new segment, empty segments are kept, and the empty string splits to a
single empty segment, exactly as in JavaScript. -/
def splitDotAux : List Char → List Char → List String
  | [], acc => [String.mk acc.reverse]
  | c :: rest, acc =>
    if c = '.' then String.mk acc.reverse :: splitDotAux rest []
    else splitDotAux rest (c :: acc)

/-- JavaScript `s.split('.')`. -/
def jsSplit (s : String) : List String :=
  splitDotAux s.data []

example : jsSplit "details.data" = ["details", "data"] := by decide
example : jsSplit "list" = ["list"] := by decide
example : jsSplit "" = [""] := by decide
example : jsSplit "a..b" = ["a", "", "b"] := by decide
example : jsSplit "a.b.c" = ["a", "b", "c"] := by decide

/-- JavaScript `segments.join('.')` (the `Array.prototype.join` call in
`getNestedStatePathName`): never `undefined`, and the empty array joins to
the empty string. -/
def jsJoin : List String → String
  | [] => ""
  | [s] => s
  | s :: rest => s ++ "." ++ jsJoin rest

example : jsJoin ["a", "b"] = "a.b" := by decide
example : jsJoin [] = "" := by decide

/-- First-occurrence lookup in an insertion-ordered field list, the embedding
of JavaScript own-property lookup. -/
def lookupField {α : Type} : List (String × α) → String → Option α
  | [], _ => none
  | (k2, v) :: rest, k => if k2 = k then some v else lookupField rest k

/-- Embedding of JavaScript property assignment on a plain object: an
existing key is overwritten in place (insertion order kept), a new key is
appended at the end. -/
def setField {α : Type} : List (String × α) → String → α → List (String × α)
  | [], k, x => [(k, x)]
  | (k2, v) :: rest, k, x =>
    if k2 = k then (k, x) :: rest else (k2, v) :: setField rest k x

/-- JavaScript `obj[k]` on an object: the stored value, or `undefined` when
the key is absent. -/
def getD (fields : List (String × Val)) (k : String) : Val :=
  (lookupField fields k).getD .vundefined

/-- The canonical array-index reading of a property key, as used by
JavaScript arrays: a digit string with no leading zero (so `"0"`, `"17"`,
but not `"01"` or `"loading"`). -/
def canonIndex (k : String) : Option Nat :=
  match k.data with
  | [] => none
  | ['0'] => some 0
  | c :: rest =>
    if c.isDigit ∧ c ≠ '0' ∧ rest.all Char.isDigit then
      some ((c :: rest).foldl (fun n d => n * 10 + (d.toNat - 48)) 0)
    else none

example : canonIndex "0" = some 0 := by decide
example : canonIndex "12" = some 12 := by decide
example : canonIndex "01" = none := by decide
example : canonIndex "loading" = none := by decide
example : canonIndex "length" = none := by decide
example : canonIndex "" = none := by decide

/-- Embedding of the JavaScript read `nestedState[path]` performed by
`getNestedState` (src/index.ts lines 68 and 71): `none` is a thrown
TypeError (property access on `undefined` or `null`); reading a key off a
boolean or number yields `undefined`; strings and arrays expose `length`
and canonical indices; objects are plain key lookup. -/
def jsGet : Val → String → Option Val
  | .vundefined, _ => none
  | .vnull, _ => none
  | .vbool _, _ => some .vundefined
  | .vnum _, _ => some .vundefined
  | .vstr s, k =>
    if k = "length" then some (.vnum s.length)
    else
      match canonIndex k with
      | some i =>
        match s.data.drop i with
        | [] => some .vundefined
        | c :: _ => some (.vstr (String.mk [c]))
      | none => some .vundefined
  | .varr xs, k =>
    if k = "length" then some (.vnum xs.length)
    else
      match canonIndex k with
      | some i => some ((xs.get? i).getD .vundefined)
      | none => some .vundefined
  | .vobj fields, k => some (getD fields k)

/-- Pad a JavaScript array with `undefined` holes up to length `n` (reading
a hole of a sparse array yields `undefined`). -/
def padTo (xs : List Val) (n : Nat) : List Val :=
  xs ++ List.replicate (n - xs.length) .vundefined

/-- Writing index `i` of a JavaScript array, extending with holes when `i`
is past the end. -/
def arrWrite (xs : List Val) (i : Nat) (x : Val) : List Val :=
  (padTo xs (i + 1)).set i x

/-- Embedding of a property assignment performed on an immer draft (the
`nestedState.loading = …` style writes in the four handlers): plain objects
accept any key; array drafts accept only canonical indices and a numeric
`length` (immer raises on other array keys, matching strict-mode JavaScript
on frozen state); every other target raises, embedded as `none`. -/
def jsSetLength (xs : List Val) : Val → Option Val
  | .vnum n => if n < 0 then none else some (.varr (padTo (xs.take n.toNat) n.toNat))
  | _ => none

/-- See the comment on `jsSetLength`: `jsSet` is the draft write itself,
`jsSetLength` its array `length = n` sub-case (truncate or extend). -/
def jsSet : Val → String → Val → Option Val
  | .vobj fields, k, x => some (.vobj (setField fields k x))
  | .varr xs, k, x =>
    (match canonIndex k with
     | some i => some (.varr (arrWrite xs i x))
     | none => if k = "length" then jsSetLength xs x else none)
  | _, _, _ => none

/-- The segment-by-segment traversal loop of `getNestedState`
(src/index.ts lines 70-72): `nestedState = nestedState[path]` for each
segment in order. -/
def walkPath (segments : List String) (v : Val) : Option Val :=
  segments.foldlM jsGet v

/-- `getNestedState` (src/index.ts lines 60-74): a single-segment selector
is read directly off the given value, a multi-segment selector is walked
segment by segment. -/
def getNestedState (stateSelector : String) (nestedState : Val) : Option Val :=
  let possibleNestedPath := jsSplit stateSelector
  if possibleNestedPath.length > 1 then walkPath possibleNestedPath nestedState
  else jsGet nestedState stateSelector

example : getNestedState "a.b" (.vobj [("a", .vobj [("b", .vnum 7)])]) = some (.vnum 7) := rfl
example : getNestedState "a" (.vobj [("a", .vnum 7)]) = some (.vnum 7) := rfl
example : getNestedState "a.b" (.vobj [("c", .vnull)]) = none := rfl
example : getNestedState "a" (.vobj []) = some .vundefined := rfl

/-- The result record of `getNestedStatePathName`, together with the
`warned` flag recording whether the single-segment `console.error`
diagnostic on src/index.ts line 89 fired. -/
structure PathParts where
  propertyName : String
  parentName : String
  pathWithoutProperty : String
  warned : Bool
deriving DecidableEq, Repr

/-- `getNestedStatePathName` (src/index.ts lines 79-101).  The two
`Array.prototype.pop` calls are embedded by taking the last element and
continuing with `dropLast`; each `?? stateSelector` fallback is embedded by
`Option.getD`; `join` never returns `undefined`, so its `??` fallback can
never fire and the embedding applies `jsJoin` directly, faithfully to the
JavaScript semantics. -/
def getNestedStatePathName (stateSelector : String) : PathParts :=
  let possibleNestedPath := jsSplit stateSelector
  let isNestedPath := possibleNestedPath.length > 1
  let warned := !isNestedPath
  let propertyName := possibleNestedPath.getLast?.getD stateSelector
  let afterPop := possibleNestedPath.dropLast
  let pathWithoutProperty := jsJoin afterPop
  let parentName := afterPop.getLast?.getD stateSelector
  ⟨propertyName, parentName, pathWithoutProperty, warned⟩

example : getNestedStatePathName "a.b.c" = ⟨"c", "b", "a.b", false⟩ := by decide
example : getNestedStatePathName "list.data" = ⟨"data", "list", "list", false⟩ := by decide
example : getNestedStatePathName "list" = ⟨"list", "list", "", true⟩ := by decide

/-- The effect, on the finalized state value, of resolving a container
through an immer draft along `segments` and mutating it with `mutate`: the
value is read at each segment, the mutated container is written back along
the same chain, and every read or write failure is the corresponding
JavaScript exception. -/
def updatePath : List String → (Val → Option Val) → Val → Option Val
  | [], mutate, v => mutate v
  | k :: rest, mutate, v => do
    let c ← jsGet v k
    let c2 ← updatePath rest mutate c
    jsSet v k c2

/-- The combination every handler in `onActionGroup` performs: resolve the
container with `getNestedState pathWithoutProperty draft` and mutate it in
place.  The branch structure is exactly that of `getNestedState`: a
single-segment selector reads and writes the property named by the whole
selector string, a multi-segment selector goes through `updatePath`. -/
def updateNestedState (stateSelector : String) (mutate : Val → Option Val) (v : Val) : Option Val :=
  let possibleNestedPath := jsSplit stateSelector
  if possibleNestedPath.length > 1 then updatePath possibleNestedPath mutate v
  else do
    let c ← jsGet v stateSelector
    let c2 ← mutate c
    jsSet v stateSelector c2

/-- The data captured by `onActionGroup` (src/index.ts lines 107-114) when
the four handlers are built: the decomposed selector and `initialData`, the
value of `getNestedState(stateSelector, state)` on the build-time initial
state (the InitialSnapshot). -/
structure BuiltGroup where
  propertyName : String
  parentName : String
  pathWithoutProperty : String
  warned : Bool
  initialData : Val

/-- The eager part of `onActionGroup` (src/index.ts lines 113-114): decompose
the selector and capture the initial snapshot; a thrown path-resolution
TypeError at build time is `none`. -/
def buildActionGroup (stateSelector : String) (state : Val) : Option BuiltGroup :=
  let parts := getNestedStatePathName stateSelector
  (getNestedState stateSelector state).map
    (fun initialData =>
      ⟨parts.propertyName, parts.parentName, parts.pathWithoutProperty, parts.warned, initialData⟩)

/-- The container mutation of the `onLoad` handler (src/index.ts lines
119-120): `nestedState.loading = true; nestedState.errors = []`. -/
def mutateLoad (c : Val) : Option Val := do
  let c2 ← jsSet c "loading" (.vbool true)
  jsSet c2 "errors" (.varr [])

/-- The container mutation of the `onLoadSuccess` handler (src/index.ts
lines 132-137): without a `reducerFunction` the leaf property is assigned
the payload data; in both cases `errors = []` and then `loading = false`
are forced. -/
def mutateSuccess (reducerFunction : Option (Val → Val → Val)) (propertyName : String)
    (data c : Val) : Option Val := do
  let c2 ← match reducerFunction with
    | none => jsSet c propertyName data
    | some _ => pure c
  let c3 ← jsSet c2 "errors" (.varr [])
  jsSet c3 "loading" (.vbool false)

/-- The container mutation of the `onLoadFailure` handler (src/index.ts
lines 147-148): `loading = false; errors = payload.errors`. -/
def mutateFailure (errors c : Val) : Option Val := do
  let c2 ← jsSet c "loading" (.vbool false)
  jsSet c2 "errors" errors

/-- The container mutation of the `onReset` handler (src/index.ts lines
159-161): restore the leaf property to the build-time snapshot, then
`errors = []; loading = false`. -/
def mutateReset (propertyName : String) (initialData c : Val) : Option Val := do
  let c2 ← jsSet c propertyName initialData
  let c3 ← jsSet c2 "errors" (.varr [])
  jsSet c3 "loading" (.vbool false)

/-- The `onLoad` handler (src/index.ts lines 115-123): resolve the container
at `pathWithoutProperty` in the draft and apply `mutateLoad` to it.  ngrx
invokes every handler with the dispatched action as a second argument; the
source lambda binds only the state, so the embedding takes the action
payload and ignores it. -/
def runOnLoad (g : BuiltGroup) (state _action : Val) : Option Val :=
  updateNestedState g.pathWithoutProperty mutateLoad state

/-- The `onLoadSuccess` handler (src/index.ts lines 125-141):
`reducerFunction`, when supplied, maps the draft and the payload data to the
next draft (src/index.ts lines 127-129); the container is then resolved in
that next draft and mutated by `mutateSuccess`. -/
def runOnLoadSuccess (reducerFunction : Option (Val → Val → Val)) (g : BuiltGroup)
    (state data : Val) : Option Val :=
  let nextState := match reducerFunction with
    | some f => f state data
    | none => state
  updateNestedState g.pathWithoutProperty
    (mutateSuccess reducerFunction g.propertyName data) nextState

/-- The `onLoadFailure` handler (src/index.ts lines 143-151): resolve the
container and apply `mutateFailure` with the payload errors. -/
def runOnLoadFailure (g : BuiltGroup) (state errors : Val) : Option Val :=
  updateNestedState g.pathWithoutProperty (mutateFailure errors) state

/-- The `onReset` handler (src/index.ts lines 153-164): resolve the
container and apply `mutateReset` with the captured snapshot.  The reset
action carries no payload; ngrx still passes the action object, which the
source lambda ignores. -/
def runOnReset (g : BuiltGroup) (state _action : Val) : Option Val :=
  updateNestedState g.pathWithoutProperty
    (mutateReset g.propertyName g.initialData) state

/-- One dispatched action of the load / loadSuccess / loadFailure part of
the flow, carrying its payload value. -/
inductive FlowAct where
  | load (payload : Val) : FlowAct
  | loadSuccess (data : Val) : FlowAct
  | loadFailure (errors : Val) : FlowAct

/-- Run one dispatched action through the matching handler. -/
def applyFlowAct (reducerFunction : Option (Val → Val → Val)) (g : BuiltGroup)
    (s : Val) : FlowAct → Option Val
  | .load p => runOnLoad g s p
  | .loadSuccess d => runOnLoadSuccess reducerFunction g s d
  | .loadFailure e => runOnLoadFailure g s e

/-- Run a whole dispatched sequence, propagating any thrown error. -/
def applyFlowActs (reducerFunction : Option (Val → Val → Val)) (g : BuiltGroup)
    (acts : List FlowAct) (s : Val) : Option Val :=
  acts.foldlM (applyFlowAct reducerFunction g) s

/-- Objects and arrays: the values an immer draft write can produce. -/
def isContainer : Val → Bool
  | .vobj _ => true
  | .varr _ => true
  | _ => false

/-- Heap-aware JavaScript values for the no-mutation law (claim C1):
containers carry an allocation identity, so that JavaScript reference
inequality (`!==`) between an input state and a produced state is
expressible.  Primitives compare by value in JavaScript and carry no
identity. -/
inductive HVal where
  | hundefined : HVal
  | hnull : HVal
  | hbool (b : Bool) : HVal
  | hnum (n : Int) : HVal
  | hstr (s : String) : HVal
  | harr (id : Nat) (elems : List HVal) : HVal
  | hobj (id : Nat) (fields : List (String × HVal)) : HVal

/-- Object field read in the heap-aware model, `undefined` when absent. -/
def lookupDH (fields : List (String × HVal)) (k : String) : HVal :=
  (lookupField fields k).getD .hundefined

/-- Modelled from the spec: the immer `produce` machinery is an external
dependency whose source is not part of this repository.  Section 4.3 of
the specification describes the handlers' technique as "operate on a
throwaway deep-copyable draft, mutate the draft freely, and let the
copy-on-write mechanism finalize an immutable result structurally sharing
unmodified branches with the original".  `updateSpineH` is that mechanism
for a mutation addressed through a chain of plain-object segments: the
container is reached by reading each segment in turn, and the finalized
result re-allocates every object on the chain from the root down to the
container with a fresh identity (`freshId`, `freshId + 1`, ...) while all
fields off the chain are shared unchanged; a chain that does not consist
of plain objects is out of this model's scope and is treated as a
failure. -/
def updateSpineH : List String → (HVal → Option HVal) → HVal → Nat → Option HVal
  | [], mutate, v, _ => mutate v
  | k :: rest, mutate, v, freshId =>
    match v with
    | .hobj _ fields =>
      (updateSpineH rest mutate (lookupDH fields k) (freshId + 1)).map
        (fun c2 => .hobj freshId (setField fields k c2))
    | _ => none

/-- `mutateLoad` in the heap-aware model: the finalized container is a
fresh object (identity `containerId`) with `loading = true` and a freshly
allocated empty `errors` array — the source always assigns a new `[]`
literal. -/
def mutateLoadH (containerId : Nat) : HVal → Option HVal
  | .hobj _ fields =>
    some (.hobj containerId (setField (setField fields "loading" (.hbool true))
      "errors" (.harr (containerId + 1) [])))
  | _ => none

/-- `mutateSuccess` in the heap-aware model; without a `reducerFunction`
the leaf is assigned the payload data, and in both cases a fresh empty
`errors` array and `loading = false` are installed on a fresh container. -/
def mutateSuccessH (reducerFunction : Option (HVal → HVal → HVal)) (propertyName : String)
    (data : HVal) (containerId : Nat) : HVal → Option HVal
  | .hobj _ fields =>
    some (.hobj containerId
      (match reducerFunction with
       | none =>
         setField (setField (setField fields propertyName data)
           "errors" (.harr (containerId + 1) [])) "loading" (.hbool false)
       | some _ =>
         setField (setField fields "errors" (.harr (containerId + 1) []))
           "loading" (.hbool false)))
  | _ => none

/-- `mutateFailure` in the heap-aware model: fresh container with
`loading = false` and the payload errors value installed as is. -/
def mutateFailureH (errors : HVal) (containerId : Nat) : HVal → Option HVal
  | .hobj _ fields =>
    some (.hobj containerId (setField (setField fields "loading" (.hbool false))
      "errors" errors))
  | _ => none

/-- `mutateReset` in the heap-aware model: fresh container with the leaf
restored to the snapshot, a fresh empty `errors` array, `loading = false`. -/
def mutateResetH (propertyName : String) (initialData : HVal) (containerId : Nat) :
    HVal → Option HVal
  | .hobj _ fields =>
    some (.hobj containerId
      (setField (setField (setField fields propertyName initialData)
        "errors" (.harr (containerId + 1) [])) "loading" (.hbool false)))
  | _ => none

/-- The `onLoad` handler in the heap-aware model. -/
def runOnLoadH (pathWithoutProperty : String) (state : HVal) (freshId : Nat) : Option HVal :=
  let segs := jsSplit pathWithoutProperty
  updateSpineH segs (mutateLoadH (freshId + segs.length)) state freshId

/-- The `onLoadSuccess` handler in the heap-aware model. -/
def runOnLoadSuccessH (reducerFunction : Option (HVal → HVal → HVal))
    (pathWithoutProperty propertyName : String) (state data : HVal) (freshId : Nat) :
    Option HVal :=
  let nextState := match reducerFunction with
    | some f => f state data
    | none => state
  let segs := jsSplit pathWithoutProperty
  updateSpineH segs
    (mutateSuccessH reducerFunction propertyName data (freshId + segs.length))
    nextState freshId

/-- The `onLoadFailure` handler in the heap-aware model. -/
def runOnLoadFailureH (pathWithoutProperty : String) (state errors : HVal) (freshId : Nat) :
    Option HVal :=
  let segs := jsSplit pathWithoutProperty
  updateSpineH segs (mutateFailureH errors (freshId + segs.length)) state freshId

/-- The `onReset` handler in the heap-aware model. -/
def runOnResetH (pathWithoutProperty propertyName : String) (initialData state : HVal)
    (freshId : Nat) : Option HVal :=
  let segs := jsSplit pathWithoutProperty
  updateSpineH segs (mutateResetH propertyName initialData (freshId + segs.length))
    state freshId

/-- The node reached by following a segment-chain position through plain
objects; the whole value at position `[]`. -/
def nodeAtH : List String → HVal → Option HVal
  | [], v => some v
  | k :: rest, v =>
    match v with
    | .hobj _ fields => nodeAtH rest (lookupDH fields k)
    | _ => none

/-- Every container identity reachable along the segment chain (and at its
end) is below `n` — the formal "all identities of the input state's chain
are older than the fresh supply". -/
def spineIdsBelow (n : Nat) : List String → HVal → Bool
  | [], .hobj i _ => decide (i < n)
  | [], .harr i _ => decide (i < n)
  | [], _ => true
  | _ :: _, .harr i _ => decide (i < n)
  | k :: rest, .hobj i fields => decide (i < n) && spineIdsBelow n rest (lookupDH fields k)
  | _ :: _, _ => true

theorem lookupField_setField_self {α : Type} (fields : List (String × α)) (k : String) (x : α) :
    lookupField (setField fields k x) k = some x := by
  induction fields with
  | nil => simp [setField, lookupField]
  | cons hd tl ih =>
    obtain ⟨k2, v⟩ := hd
    by_cases hk : k2 = k
    · simp [setField, hk, lookupField]
    · simp [setField, hk, lookupField, ih]

theorem lookupField_setField_ne {α : Type} (fields : List (String × α)) {k k2 : String} (x : α)
    (hne : k2 ≠ k) : lookupField (setField fields k x) k2 = lookupField fields k2 := by
  have hne2 : ¬ k = k2 := fun h => hne h.symm
  induction fields with
  | nil => simp [setField, lookupField, hne2]
  | cons hd tl ih =>
    obtain ⟨k3, v⟩ := hd
    by_cases hk : k3 = k
    · subst hk
      simp [setField, lookupField, hne2]
    · simp only [setField, if_neg hk, lookupField]
      by_cases hk2 : k3 = k2
      · simp [hk2]
      · simp [hk2, ih]

theorem setField_setField {α : Type} (fields : List (String × α)) (k : String) (x y : α) :
    setField (setField fields k x) k y = setField fields k y := by
  induction fields with
  | nil => simp [setField]
  | cons hd tl ih =>
    obtain ⟨k2, v⟩ := hd
    by_cases hk : k2 = k
    · simp [setField, hk]
    · simp [setField, hk, ih]

theorem getD_setField_self (fields : List (String × Val)) (k : String) (x : Val) :
    getD (setField fields k x) k = x := by
  simp [getD, lookupField_setField_self]

theorem getD_setField_ne (fields : List (String × Val)) {k k2 : String} (x : Val)
    (hne : k2 ≠ k) : getD (setField fields k x) k2 = getD fields k2 := by
  simp [getD, lookupField_setField_ne fields x hne]

theorem padTo_length (xs : List Val) (n : Nat) : (padTo xs n).length = max xs.length n := by
  simp [padTo]
  omega

theorem padTo_of_le (xs : List Val) {n : Nat} (h : n ≤ xs.length) : padTo xs n = xs := by
  simp [padTo, Nat.sub_eq_zero_of_le h]

theorem arrWrite_length (xs : List Val) (i : Nat) (x : Val) :
    (arrWrite xs i x).length = max xs.length (i + 1) := by
  simp [arrWrite, padTo_length]

theorem getElem?_arrWrite_self (xs : List Val) (i : Nat) (x : Val) :
    (arrWrite xs i x)[i]? = some x := by
  have hlen : i < (padTo xs (i + 1)).length := by
    rw [padTo_length]
    omega
  simpa [arrWrite] using List.getElem?_set_eq_of_lt x hlen

theorem arrWrite_arrWrite (xs : List Val) (i : Nat) (x y : Val) :
    arrWrite (arrWrite xs i x) i y = arrWrite xs i y := by
  have h1 : i + 1 ≤ ((padTo xs (i + 1)).set i x).length := by
    rw [List.length_set, padTo_length]
    omega
  show (padTo ((padTo xs (i + 1)).set i x) (i + 1)).set i y = _
  rw [padTo_of_le _ h1, List.set_set]
  rfl

/-- `canonIndex` never accepts the literal key `"length"`. -/
theorem canonIndex_length : canonIndex "length" = none := by decide

/-- Inversion of a successful draft write: the target was an object (plain
field update), or an array written at a canonical index, or an array whose
`length` was assigned a non-negative number. -/
theorem jsSet_inv {v : Val} {k : String} {x w : Val} (h : jsSet v k x = some w) :
    (∃ fields, v = .vobj fields ∧ w = .vobj (setField fields k x)) ∨
    (∃ xs i, v = .varr xs ∧ canonIndex k = some i ∧ w = .varr (arrWrite xs i x)) ∨
    (∃ xs n, v = .varr xs ∧ canonIndex k = none ∧ k = "length" ∧ x = .vnum n ∧
      ¬ n < 0 ∧ w = .varr (padTo (xs.take n.toNat) n.toNat)) := by
  cases v with
  | vundefined => simp [jsSet] at h
  | vnull => simp [jsSet] at h
  | vbool b => simp [jsSet] at h
  | vnum n => simp [jsSet] at h
  | vstr s => simp [jsSet] at h
  | vobj fields =>
    simp only [jsSet, Option.some.injEq] at h
    exact Or.inl ⟨fields, rfl, h.symm⟩
  | varr xs =>
    simp only [jsSet] at h
    rcases hci : canonIndex k with _ | i
    · rw [hci] at h
      simp only at h
      by_cases hk : k = "length"
      · rw [if_pos hk] at h
        cases x with
        | vnum n =>
          simp only [jsSetLength] at h
          by_cases hn : n < 0
          · rw [if_pos hn] at h
            cases h
          · rw [if_neg hn] at h
            refine Or.inr (Or.inr ⟨xs, n, rfl, rfl, hk, rfl, hn, ?_⟩)
            exact (Option.some.injEq _ _ ▸ h).symm
        | vundefined => simp [jsSetLength] at h
        | vnull => simp [jsSetLength] at h
        | vbool b => simp [jsSetLength] at h
        | vstr s => simp [jsSetLength] at h
        | varr ys => simp [jsSetLength] at h
        | vobj fs => simp [jsSetLength] at h
      · rw [if_neg hk] at h
        cases h
    · rw [hci] at h
      simp only [Option.some.injEq] at h
      exact Or.inr (Or.inl ⟨xs, i, rfl, rfl, h.symm⟩)

/-- A successful draft write always produces an object or an array. -/
theorem jsSet_isContainer {v : Val} {k : String} {x w : Val} (h : jsSet v k x = some w) :
    isContainer w = true := by
  rcases jsSet_inv h with ⟨fields, rfl, rfl⟩ | ⟨xs, i, rfl, hci, rfl⟩ |
    ⟨xs, n, rfl, hci, hk, rfl, hn, rfl⟩ <;> rfl

/-- Reading back the key just written through a draft yields the written
value (get-after-set). -/
theorem jsGet_jsSet_self {v : Val} {k : String} {x w : Val} (h : jsSet v k x = some w) :
    jsGet w k = some x := by
  rcases jsSet_inv h with ⟨fields, rfl, rfl⟩ | ⟨xs, i, rfl, hci, rfl⟩ |
    ⟨xs, n, rfl, hci, hk, rfl, hn, rfl⟩
  · simp [jsGet, getD_setField_self]
  · have hkl : k ≠ "length" := by
      intro hk
      rw [hk, canonIndex_length] at hci
      cases hci
    simp [jsGet, hkl, hci, getElem?_arrWrite_self]
  · subst hk
    simp only [jsGet, if_pos rfl, Option.some.injEq]
    have hlen : (padTo (xs.take n.toNat) n.toNat).length = n.toNat := by
      rw [padTo_length, List.length_take]
      omega
    rw [hlen]
    have hcast : (n.toNat : Int) = n := Int.toNat_of_nonneg (by omega)
    rw [hcast]
    simp

/-- Overwriting a draft write with a second write to the same key is the
same as performing only the second write, provided the first written value
is a container (the only values the handlers ever write back along the
resolution chain). -/
theorem jsSet_jsSet_collapse {v : Val} {k : String} {x w : Val}
    (hx : isContainer x = true) (h : jsSet v k x = some w) (y : Val) :
    jsSet w k y = jsSet v k y := by
  rcases jsSet_inv h with ⟨fields, rfl, rfl⟩ | ⟨xs, i, rfl, hci, rfl⟩ |
    ⟨xs, n, rfl, hci, hk, rfl, hn, rfl⟩
  · simp [jsSet, setField_setField]
  · simp [jsSet, hci, arrWrite_arrWrite]
  · simp [isContainer] at hx

theorem updatePath_cons (k : String) (rest : List String) (mutate : Val → Option Val) (v : Val) :
    updatePath (k :: rest) mutate v =
      (jsGet v k).bind (fun c => (updatePath rest mutate c).bind (jsSet v k)) := rfl

theorem walkPath_cons (k : String) (rest : List String) (v : Val) :
    walkPath (k :: rest) v = (jsGet v k).bind (walkPath rest) := by
  cases h : jsGet v k <;> simp [walkPath, List.foldlM_cons, h]

/-- Success analysis of a draft update along a segment chain: the container
is readable at the chain in the input, the mutation succeeded on it, and in
the result the chain reads back exactly the mutated container. -/
theorem updatePath_spec {segments : List String} {mutate : Val → Option Val} {v v2 : Val}
    (h : updatePath segments mutate v = some v2) :
    ∃ c c2, walkPath segments v = some c ∧ mutate c = some c2 ∧
      walkPath segments v2 = some c2 := by
  induction segments generalizing v v2 with
  | nil => exact ⟨v, v2, rfl, h, rfl⟩
  | cons k rest ih =>
    rw [updatePath_cons] at h
    rcases Option.bind_eq_some.mp h with ⟨c0, hget, h2⟩
    rcases Option.bind_eq_some.mp h2 with ⟨c1, hupd, hset⟩
    obtain ⟨c, c2, hwalk, hmut, hwalk2⟩ := ih hupd
    refine ⟨c, c2, ?_, hmut, ?_⟩
    · rw [walkPath_cons, hget]
      exact hwalk
    · rw [walkPath_cons, jsGet_jsSet_self hset]
      exact hwalk2

/-- A successful draft update returns an object or an array at the root. -/
theorem updatePath_isContainer {segments : List String} {mutate : Val → Option Val} {v v2 : Val}
    (hm : ∀ c c2, mutate c = some c2 → isContainer c2 = true)
    (h : updatePath segments mutate v = some v2) : isContainer v2 = true := by
  cases segments with
  | nil => exact hm v v2 h
  | cons k rest =>
    rw [updatePath_cons] at h
    rcases Option.bind_eq_some.mp h with ⟨c0, _, h2⟩
    rcases Option.bind_eq_some.mp h2 with ⟨c1, _, hset⟩
    exact jsSet_isContainer hset

/-- Replacing the container at the chain with a fixed value erases the
effect of a previous successful update at that same chain: the state before
and the state after the update agree outside the addressed container. -/
theorem updatePath_blank {segments : List String} {mutate : Val → Option Val} {v v2 : Val}
    (hm : ∀ c c2, mutate c = some c2 → isContainer c2 = true)
    (h : updatePath segments mutate v = some v2) (y : Val) :
    updatePath segments (fun _ => some y) v2 = updatePath segments (fun _ => some y) v := by
  induction segments generalizing v v2 with
  | nil => rfl
  | cons k rest ih =>
    rw [updatePath_cons] at h
    rcases Option.bind_eq_some.mp h with ⟨c0, hget, h2⟩
    rcases Option.bind_eq_some.mp h2 with ⟨c1, hupd, hset⟩
    have hc1 : isContainer c1 = true := updatePath_isContainer hm hupd
    rw [updatePath_cons, updatePath_cons, hget, jsGet_jsSet_self hset]
    show (updatePath rest (fun _ => some y) c1).bind (jsSet v2 k)
       = (updatePath rest (fun _ => some y) c0).bind (jsSet v k)
    rw [ih hupd]
    cases hblank : updatePath rest (fun _ => some y) c0 with
    | none => rfl
    | some z =>
      show jsSet v2 k z = jsSet v k z
      exact jsSet_jsSet_collapse hc1 hset z

/-- `updateNestedState` success analysis, with the read side expressed by
the source's own `getNestedState`. -/
theorem updateNestedState_spec {stateSelector : String} {mutate : Val → Option Val} {v v2 : Val}
    (h : updateNestedState stateSelector mutate v = some v2) :
    ∃ c c2, getNestedState stateSelector v = some c ∧ mutate c = some c2 ∧
      getNestedState stateSelector v2 = some c2 := by
  by_cases hlen : (jsSplit stateSelector).length > 1
  · rw [updateNestedState, if_pos hlen] at h
    obtain ⟨c, c2, hwalk, hmut, hwalk2⟩ := updatePath_spec h
    exact ⟨c, c2, by rw [getNestedState, if_pos hlen]; exact hwalk, hmut,
      by rw [getNestedState, if_pos hlen]; exact hwalk2⟩
  · rw [updateNestedState, if_neg hlen] at h
    rcases Option.bind_eq_some.mp h with ⟨c0, hget, h2⟩
    rcases Option.bind_eq_some.mp h2 with ⟨c1, hmut, hset⟩
    exact ⟨c0, c1, by rw [getNestedState, if_neg hlen]; exact hget, hmut,
      by rw [getNestedState, if_neg hlen]; exact jsGet_jsSet_self hset⟩

theorem updateNestedState_blank {stateSelector : String} {mutate : Val → Option Val} {v v2 : Val}
    (hm : ∀ c c2, mutate c = some c2 → isContainer c2 = true)
    (h : updateNestedState stateSelector mutate v = some v2) (y : Val) :
    updateNestedState stateSelector (fun _ => some y) v2 =
      updateNestedState stateSelector (fun _ => some y) v := by
  by_cases hlen : (jsSplit stateSelector).length > 1
  · rw [updateNestedState, if_pos hlen] at h
    rw [updateNestedState, updateNestedState, if_pos hlen, if_pos hlen]
    exact updatePath_blank hm h y
  · rw [updateNestedState, if_neg hlen] at h
    rcases Option.bind_eq_some.mp h with ⟨c0, hget, h2⟩
    rcases Option.bind_eq_some.mp h2 with ⟨c1, hmut, hset⟩
    have hc1 : isContainer c1 = true := hm c0 c1 hmut
    rw [updateNestedState, updateNestedState, if_neg hlen, if_neg hlen, hget,
      jsGet_jsSet_self hset]
    show (some y).bind (jsSet v2 stateSelector) = (some y).bind (jsSet v stateSelector)
    show jsSet v2 stateSelector y = jsSet v stateSelector y
    exact jsSet_jsSet_collapse hc1 hset y

/-- A draft write under a key that is neither a canonical array index nor
`length` succeeds only on a plain object. -/
theorem jsSet_plain_inv {c : Val} {k : String} {x w : Val}
    (hci : canonIndex k = none) (hkl : k ≠ "length") (h : jsSet c k x = some w) :
    ∃ fields, c = .vobj fields ∧ w = .vobj (setField fields k x) := by
  rcases jsSet_inv h with hobj | ⟨xs, i, rfl, hci2, rfl⟩ | ⟨xs, n, rfl, _, hk, _⟩
  · exact hobj
  · rw [hci] at hci2
    cases hci2
  · exact absurd hk hkl

/-- A draft write that produced a plain object was performed on a plain
object. -/
theorem jsSet_to_vobj_inv {c : Val} {k : String} {x : Val} {fields : List (String × Val)}
    (h : jsSet c k x = some (.vobj fields)) :
    ∃ fields0, c = .vobj fields0 ∧ fields = setField fields0 k x := by
  rcases jsSet_inv h with ⟨f0, rfl, heq⟩ | ⟨xs, i, rfl, hci, heq⟩ |
    ⟨xs, n, rfl, _, _, _, _, heq⟩
  · refine ⟨f0, rfl, ?_⟩
    injection heq
  · cases heq
  · cases heq

theorem canonIndex_loading : canonIndex "loading" = none := by decide

theorem canonIndex_errors : canonIndex "errors" = none := by decide

theorem mutateLoad_inv {c c3 : Val} (h : mutateLoad c = some c3) :
    ∃ fields, c = .vobj fields ∧
      c3 = .vobj (setField (setField fields "loading" (.vbool true)) "errors" (.varr [])) := by
  rcases Option.bind_eq_some.mp h with ⟨c2, h1, h2⟩
  obtain ⟨f1, rfl, rfl⟩ := jsSet_plain_inv canonIndex_loading (by decide) h1
  obtain ⟨f2, heq, rfl⟩ := jsSet_plain_inv canonIndex_errors (by decide) h2
  injection heq with heq2
  exact ⟨f1, rfl, by rw [heq2]⟩

theorem mutateFailure_inv {errors c c3 : Val} (h : mutateFailure errors c = some c3) :
    ∃ fields, c = .vobj fields ∧
      c3 = .vobj (setField (setField fields "loading" (.vbool false)) "errors" errors) := by
  rcases Option.bind_eq_some.mp h with ⟨c2, h1, h2⟩
  obtain ⟨f1, rfl, rfl⟩ := jsSet_plain_inv canonIndex_loading (by decide) h1
  obtain ⟨f2, heq, rfl⟩ := jsSet_plain_inv canonIndex_errors (by decide) h2
  injection heq with heq2
  exact ⟨f1, rfl, by rw [heq2]⟩

theorem mutateReset_inv {propertyName : String} {initialData c c4 : Val}
    (h : mutateReset propertyName initialData c = some c4) :
    ∃ fields, c = .vobj fields ∧
      c4 = .vobj (setField (setField (setField fields propertyName initialData)
        "errors" (.varr [])) "loading" (.vbool false)) := by
  rcases Option.bind_eq_some.mp h with ⟨c2, h1, h2⟩
  rcases Option.bind_eq_some.mp h2 with ⟨c3, h3, h4⟩
  obtain ⟨f3, heq3, rfl⟩ := jsSet_plain_inv canonIndex_loading (by decide) h4
  subst heq3
  obtain ⟨f2, heq2, hf3⟩ := jsSet_to_vobj_inv h3
  subst heq2
  obtain ⟨f1, rfl, hf2⟩ := jsSet_to_vobj_inv h1
  rw [hf3, hf2]
  exact ⟨f1, rfl, rfl⟩

theorem mutateSuccess_none_inv {propertyName : String} {data c c4 : Val}
    (h : mutateSuccess none propertyName data c = some c4) :
    ∃ fields, c = .vobj fields ∧
      c4 = .vobj (setField (setField (setField fields propertyName data)
        "errors" (.varr [])) "loading" (.vbool false)) := by
  rcases Option.bind_eq_some.mp h with ⟨c2, h1, h2⟩
  rcases Option.bind_eq_some.mp h2 with ⟨c3, h3, h4⟩
  obtain ⟨f3, heq3, rfl⟩ := jsSet_plain_inv canonIndex_loading (by decide) h4
  subst heq3
  obtain ⟨f2, heq2, hf3⟩ := jsSet_to_vobj_inv h3
  subst heq2
  obtain ⟨f1, rfl, hf2⟩ := jsSet_to_vobj_inv h1
  rw [hf3, hf2]
  exact ⟨f1, rfl, rfl⟩

theorem mutateSuccess_some_inv {rf : Val → Val → Val} {propertyName : String} {data c c4 : Val}
    (h : mutateSuccess (some rf) propertyName data c = some c4) :
    ∃ fields, c = .vobj fields ∧
      c4 = .vobj (setField (setField fields "errors" (.varr [])) "loading" (.vbool false)) := by
  rcases Option.bind_eq_some.mp h with ⟨c2, h1, h2⟩
  obtain ⟨f3, heq3, rfl⟩ := jsSet_plain_inv canonIndex_loading (by decide) h2
  subst heq3
  obtain ⟨f2, rfl, hf3⟩ := jsSet_to_vobj_inv h1
  exact ⟨f2, rfl, by rw [hf3]⟩

theorem mutateLoad_container : ∀ c c2, mutateLoad c = some c2 → isContainer c2 = true := by
  intro c c2 h
  obtain ⟨f, _, rfl⟩ := mutateLoad_inv h
  rfl

theorem mutateFailure_container (errors : Val) :
    ∀ c c2, mutateFailure errors c = some c2 → isContainer c2 = true := by
  intro c c2 h
  obtain ⟨f, _, rfl⟩ := mutateFailure_inv h
  rfl

theorem mutateReset_container (propertyName : String) (initialData : Val) :
    ∀ c c2, mutateReset propertyName initialData c = some c2 → isContainer c2 = true := by
  intro c c2 h
  obtain ⟨f, _, rfl⟩ := mutateReset_inv h
  rfl

theorem mutateSuccess_container (reducerFunction : Option (Val → Val → Val))
    (propertyName : String) (data : Val) :
    ∀ c c2, mutateSuccess reducerFunction propertyName data c = some c2 →
      isContainer c2 = true := by
  intro c c2 h
  cases reducerFunction with
  | none =>
    obtain ⟨f, _, rfl⟩ := mutateSuccess_none_inv h
    rfl
  | some rf =>
    obtain ⟨f, _, rfl⟩ := mutateSuccess_some_inv h
    rfl

/-- Claim C9: for every state in which the container at
`pathWithoutProperty` resolves — equivalently here, on which the handler
completes — and every payload errors value, `onLoadFailure` produces a
state whose addressed container has `loading = false` and whose `errors`
field equals the payload (the previous errors value is replaced, not
appended to), while the leaf property named `propertyName` is left
untouched.  The two disequality hypotheses are the spec's container-slot
convention that the leaf data property is a third field distinct from the
`loading`/`errors` bookkeeping fields.  No `onLoad` needs to have run
before: the state is arbitrary, covering a `loadFailure` dispatched
directly from idle. -/
theorem claim_C9_loadFailure (g : BuiltGroup) (s errors s2 : Val)
    (hrun : runOnLoadFailure g s errors = some s2)
    (hp1 : g.propertyName ≠ "loading") (hp2 : g.propertyName ≠ "errors") :
    ∃ fields fields2,
      getNestedState g.pathWithoutProperty s = some (.vobj fields) ∧
      getNestedState g.pathWithoutProperty s2 = some (.vobj fields2) ∧
      getD fields2 "loading" = .vbool false ∧
      getD fields2 "errors" = errors ∧
      getD fields2 g.propertyName = getD fields g.propertyName := by
  obtain ⟨c, c2, hget, hmut, hget2⟩ := updateNestedState_spec hrun
  obtain ⟨fields, rfl, rfl⟩ := mutateFailure_inv hmut
  refine ⟨fields, _, hget, hget2, ?_, ?_, ?_⟩
  · rw [getD_setField_ne _ _ (by decide), getD_setField_self]
  · rw [getD_setField_self]
  · rw [getD_setField_ne _ _ hp2, getD_setField_ne _ _ hp1]

/-- Witness for claim C9 at a concrete group, state and payload. -/
theorem claim_C9_loadFailure_witness :
    ∃ fields fields2,
      getNestedState "list"
        (.vobj [("list", .vobj [("data", .varr []), ("loading", .vbool false),
          ("errors", .varr [])])]) = some (.vobj fields) ∧
      getNestedState "list"
        (.vobj [("list", .vobj [("data", .varr []), ("loading", .vbool false),
          ("errors", .vstr "network")])]) = some (.vobj fields2) ∧
      getD fields2 "loading" = .vbool false ∧
      getD fields2 "errors" = .vstr "network" ∧
      getD fields2 "data" = getD fields "data" :=
  claim_C9_loadFailure ⟨"data", "list", "list", false, .varr []⟩
    (.vobj [("list", .vobj [("data", .varr []), ("loading", .vbool false),
      ("errors", .varr [])])])
    (.vstr "network")
    (.vobj [("list", .vobj [("data", .varr []), ("loading", .vbool false),
      ("errors", .vstr "network")])])
    rfl (by decide) (by decide)

/-- Claim C2: for every initial state against which the selector resolves
at build time (the `buildActionGroup` hypothesis, which also fixes
`initialData` as the build-time snapshot of the value at the selector), any
interleaving of load / loadSuccess / loadFailure transitions with any
payloads starting from any state, followed by one `onReset`, yields a state
whose addressed leaf equals the snapshot, with `errors = []` and
`loading = false` at the addressed container.  The two disequality
hypotheses are the spec's container-slot convention for the leaf name. -/
theorem claim_C2_reset_restores (stateSelector : String) (st : Val) (g : BuiltGroup)
    (reducerFunction : Option (Val → Val → Val)) (acts : List FlowAct)
    (s0 s1 payload s2 : Val)
    (hbuild : buildActionGroup stateSelector st = some g)
    (hacts : applyFlowActs reducerFunction g acts s0 = some s1)
    (hreset : runOnReset g s1 payload = some s2)
    (hp1 : g.propertyName ≠ "loading") (hp2 : g.propertyName ≠ "errors") :
    getNestedState stateSelector st = some g.initialData ∧
    ∃ fields2,
      getNestedState g.pathWithoutProperty s2 = some (.vobj fields2) ∧
      getD fields2 g.propertyName = g.initialData ∧
      getD fields2 "errors" = .varr [] ∧
      getD fields2 "loading" = .vbool false := by
  constructor
  · rcases Option.map_eq_some'.mp hbuild with ⟨d, hget, hg⟩
    rw [hget, ← hg]
  · obtain ⟨c, c2, hget, hmut, hget2⟩ := updateNestedState_spec hreset
    obtain ⟨fields, rfl, rfl⟩ := mutateReset_inv hmut
    refine ⟨_, hget2, ?_, ?_, ?_⟩
    · rw [getD_setField_ne _ _ hp1, getD_setField_ne _ _ hp2, getD_setField_self]
    · rw [getD_setField_ne _ _ (by decide), getD_setField_self]
    · rw [getD_setField_self]

/-- Witness for claim C2: a concrete load / failure / load / success
interleaving followed by reset restores the snapshot. -/
theorem claim_C2_reset_restores_witness :
    getNestedState "list.data"
      (.vobj [("list", .vobj [("data", .varr []), ("loading", .vbool false),
        ("errors", .varr [])])]) = some (.varr []) ∧
    ∃ fields2,
      getNestedState "list"
        (.vobj [("list", .vobj [("data", .varr []), ("loading", .vbool false),
          ("errors", .varr [])])]) = some (.vobj fields2) ∧
      getD fields2 "data" = .varr [] ∧
      getD fields2 "errors" = .varr [] ∧
      getD fields2 "loading" = .vbool false :=
  claim_C2_reset_restores "list.data"
    (.vobj [("list", .vobj [("data", .varr []), ("loading", .vbool false),
      ("errors", .varr [])])])
    ⟨"data", "list", "list", false, .varr []⟩
    none
    [.load .vnull, .loadFailure (.vstr "boom"), .load .vnull,
      .loadSuccess (.varr [.vnum 1])]
    (.vobj [("list", .vobj [("data", .varr []), ("loading", .vbool false),
      ("errors", .varr [])])])
    (.vobj [("list", .vobj [("data", .varr [.vnum 1]), ("loading", .vbool false),
      ("errors", .varr [])])])
    .vnull
    (.vobj [("list", .vobj [("data", .varr []), ("loading", .vbool false),
      ("errors", .varr [])])])
    rfl rfl rfl (by decide) (by decide)

/-- Claim C3: with a custom `reducerFunction` supplied, `onLoadSuccess`
equals the merge result `reducerFunction s data` structurally except at the
container addressed by `pathWithoutProperty`, whose `loading` field is
forced `false` and `errors` field forced `[]` (the container of the result
is exactly the merge result's container with those two fields overwritten,
so in particular the leaf `propertyName` field is not additionally
overwritten with the payload).  The last conjunct expresses the
outside-the-container agreement: replacing the addressed container by a
fixed value in both states yields equal values. -/
theorem claim_C3_mergeFn_delegation (rf : Val → Val → Val) (g : BuiltGroup)
    (s data s2 : Val)
    (hrun : runOnLoadSuccess (some rf) g s data = some s2) :
    ∃ fields fields2,
      getNestedState g.pathWithoutProperty (rf s data) = some (.vobj fields) ∧
      getNestedState g.pathWithoutProperty s2 = some (.vobj fields2) ∧
      fields2 = setField (setField fields "errors" (.varr [])) "loading" (.vbool false) ∧
      (g.propertyName ≠ "loading" → g.propertyName ≠ "errors" →
        getD fields2 g.propertyName = getD fields g.propertyName) ∧
      updateNestedState g.pathWithoutProperty (fun _ => some .vnull) s2 =
        updateNestedState g.pathWithoutProperty (fun _ => some .vnull) (rf s data) := by
  have hrun2 : updateNestedState g.pathWithoutProperty
      (mutateSuccess (some rf) g.propertyName data) (rf s data) = some s2 := hrun
  obtain ⟨c, c2, hget, hmut, hget2⟩ := updateNestedState_spec hrun2
  obtain ⟨fields, rfl, rfl⟩ := mutateSuccess_some_inv hmut
  refine ⟨fields, _, hget, hget2, rfl, ?_, ?_⟩
  · intro hp1 hp2
    rw [getD_setField_ne _ _ hp1, getD_setField_ne _ _ hp2]
  · exact updateNestedState_blank (mutateSuccess_container _ _ _) hrun2 .vnull

/-- Witness for claim C3 at a concrete merge function, state and payload. -/
theorem claim_C3_mergeFn_delegation_witness :
    ∃ fields fields2,
      getNestedState "list"
        (.vobj [("list", .vobj [("data", .varr [.vnum 7]), ("loading", .vbool true),
          ("errors", .varr [])]), ("extra", .vnum 5)]) = some (.vobj fields) ∧
      getNestedState "list"
        (.vobj [("list", .vobj [("data", .varr [.vnum 7]), ("loading", .vbool false),
          ("errors", .varr [])]), ("extra", .vnum 5)]) = some (.vobj fields2) ∧
      fields2 = setField (setField fields "errors" (.varr [])) "loading" (.vbool false) ∧
      ("data" ≠ "loading" → "data" ≠ "errors" →
        getD fields2 "data" = getD fields "data") ∧
      updateNestedState "list" (fun _ => some .vnull)
        (.vobj [("list", .vobj [("data", .varr [.vnum 7]), ("loading", .vbool false),
          ("errors", .varr [])]), ("extra", .vnum 5)]) =
      updateNestedState "list" (fun _ => some .vnull)
        (.vobj [("list", .vobj [("data", .varr [.vnum 7]), ("loading", .vbool true),
          ("errors", .varr [])]), ("extra", .vnum 5)]) :=
  claim_C3_mergeFn_delegation
    (fun s data =>
      match s with
      | .vobj fields => .vobj (setField fields "extra" (.vnum 5))
      | _ => data)
    ⟨"data", "list", "list", false, .varr []⟩
    (.vobj [("list", .vobj [("data", .varr [.vnum 7]), ("loading", .vbool true),
      ("errors", .varr [])])])
    (.varr [.vnum 9])
    (.vobj [("list", .vobj [("data", .varr [.vnum 7]), ("loading", .vbool false),
      ("errors", .varr [])]), ("extra", .vnum 5)])
    rfl

/-- Claim C10: the `onLoad` and `onReset` handlers ignore the dispatched
action entirely — the source lambdas bind only the state argument — so the
produced state does not depend on the action payload; in particular the
load action's `param` value is never written into the state.  In the
embedding the handlers are pure functions of the state and the captured
build data, so payload independence is definitional. -/
theorem claim_C10_payload_independence :
    ∀ (g : BuiltGroup) (s p1 p2 : Val),
      runOnLoad g s p1 = runOnLoad g s p2 ∧ runOnReset g s p1 = runOnReset g s p2 :=
  fun _ _ _ _ => ⟨rfl, rfl⟩

/-- Claim C8: the four identifiers are exactly the four template strings of
src/index.ts lines 41-55, and the Todo configuration yields the four
documented identifier strings. -/
theorem claim_C8_identifiers :
    (∀ config : GroupedActionsConfig,
      createDataFlowActions config =
        ⟨"[" ++ config.source ++ "] " ++ config.action,
         "[API] " ++ config.action ++ " Success",
         "[API] " ++ config.action ++ " Failure",
         "[" ++ config.source ++ "] " ++ config.action ++ " Reset"⟩) ∧
    createDataFlowActions ⟨"Todo", "Load todo list"⟩ =
      ⟨"[Todo] Load todo list", "[API] Load todo list Success",
       "[API] Load todo list Failure", "[Todo] Load todo list Reset"⟩ :=
  ⟨fun _ => rfl, by decide⟩

theorem apiSuccess_inj {a b : String}
    (h : "[API] " ++ a ++ " Success" = "[API] " ++ b ++ " Success") : a = b := by
  have hd := congrArg String.data h
  simp only [String.data_append] at hd
  exact String.ext (List.append_cancel_left (List.append_cancel_right hd))

theorem apiFailure_inj {a b : String}
    (h : "[API] " ++ a ++ " Failure" = "[API] " ++ b ++ " Failure") : a = b := by
  have hd := congrArg String.data h
  simp only [String.data_append] at hd
  exact String.ext (List.append_cancel_left (List.append_cancel_right hd))

theorem apiSuccess_ne_apiFailure (a b : String) :
    "[API] " ++ a ++ " Success" ≠ "[API] " ++ b ++ " Failure" := by
  intro h
  have hd := congrArg String.data h
  simp only [String.data_append] at hd
  have h2 : (" Success".data : List Char) = " Failure".data :=
    (List.append_inj' hd (by decide)).2
  exact absurd h2 (by decide)

/-- Counterexample to claim C7: two distinct configurations (non-empty
source and action fields) that differ in `source` share their `loadSuccess`
and `loadFailure` identifiers, because those two templates do not mention
`source` at all — the four-identifier sets are not disjoint. -/
theorem claim_C7_counterexample :
    (⟨"Todo", "Load"⟩ : GroupedActionsConfig) ≠ (⟨"Other", "Load"⟩ : GroupedActionsConfig) ∧
    "Todo" ≠ "" ∧ "Other" ≠ "" ∧ "Load" ≠ "" ∧
    (createDataFlowActions ⟨"Todo", "Load"⟩).loadSuccess =
      (createDataFlowActions ⟨"Other", "Load"⟩).loadSuccess ∧
    (createDataFlowActions ⟨"Todo", "Load"⟩).loadFailure =
      (createDataFlowActions ⟨"Other", "Load"⟩).loadFailure := by
  refine ⟨by decide, by decide, by decide, by decide, by decide, by decide⟩

/-- Claim C7 as amended: only the identifiers that embed the `action` text
distinguish configurations, and only along the `action` coordinate — for
two configurations with different `action` strings the `loadSuccess` and
`loadFailure` identifiers of one are disjoint from those of the other;
configurations differing only in `source` collide on both API-prefixed
identifiers (see the counterexample). -/
theorem claim_C7_amended (c1 c2 : GroupedActionsConfig) (hne : c1.action ≠ c2.action) :
    (createDataFlowActions c1).loadSuccess ≠ (createDataFlowActions c2).loadSuccess ∧
    (createDataFlowActions c1).loadFailure ≠ (createDataFlowActions c2).loadFailure ∧
    (createDataFlowActions c1).loadSuccess ≠ (createDataFlowActions c2).loadFailure ∧
    (createDataFlowActions c1).loadFailure ≠ (createDataFlowActions c2).loadSuccess :=
  ⟨fun h => hne (apiSuccess_inj h), fun h => hne (apiFailure_inj h),
    apiSuccess_ne_apiFailure _ _, fun h => apiSuccess_ne_apiFailure _ _ h.symm⟩

/-- Witness for the amended claim C7 at two concrete configurations. -/
theorem claim_C7_amended_witness :
    (createDataFlowActions ⟨"Todo", "Load"⟩).loadSuccess ≠
      (createDataFlowActions ⟨"Todo", "Save"⟩).loadSuccess ∧
    (createDataFlowActions ⟨"Todo", "Load"⟩).loadFailure ≠
      (createDataFlowActions ⟨"Todo", "Save"⟩).loadFailure ∧
    (createDataFlowActions ⟨"Todo", "Load"⟩).loadSuccess ≠
      (createDataFlowActions ⟨"Todo", "Save"⟩).loadFailure ∧
    (createDataFlowActions ⟨"Todo", "Load"⟩).loadFailure ≠
      (createDataFlowActions ⟨"Todo", "Save"⟩).loadSuccess :=
  claim_C7_amended ⟨"Todo", "Load"⟩ ⟨"Todo", "Save"⟩ (by decide)

/-- Claim C5, evaluated at the failing single-segment input: the code
returns `pathWithoutProperty = ""` for the selector `"list"` —
`[].join(".")` is `""`, not `undefined`, so the `?? stateSelector` fallback
on src/index.ts line 93 can never fire — while the claim (and the dead
fallback, which shows the intent) says the same single segment is returned
as a root sentinel.  On two or more segments the decomposition matches the
claim, as the `"a.b.c"` evaluation shows. -/
theorem claim_C5_decomposition_divergence :
    getNestedStatePathName "list" = ⟨"list", "list", "", true⟩ ∧
    (getNestedStatePathName "list").pathWithoutProperty ≠ "list" ∧
    getNestedStatePathName "a.b.c" = ⟨"c", "b", "a.b", false⟩ ∧
    getNestedStatePathName "list.data" = ⟨"data", "list", "list", false⟩ := by
  decide

/-- Counterexample to claim C6: for the single-segment selector `"list"`
the build completes (the diagnostic is only logged), but the produced
`onLoad` handler does not complete treating the root state object as the
container — it raises a runtime TypeError (`none`), because
`pathWithoutProperty` is the empty string and the handler reads the
property named `""` off the state, which is `undefined`. -/
theorem claim_C6_counterexample :
    (buildActionGroup "list" (.vobj [("list", .vobj [("data", .varr []),
      ("loading", .vbool false), ("errors", .varr [])])])).isSome = true ∧
    ((buildActionGroup "list" (.vobj [("list", .vobj [("data", .varr []),
      ("loading", .vbool false), ("errors", .varr [])])])).bind
        (fun g => runOnLoad g (.vobj [("list", .vobj [("data", .varr []),
          ("loading", .vbool false), ("errors", .varr [])])]) .vnull)) = none :=
  ⟨rfl, rfl⟩

/-- Claim C6 as amended: on a single-segment selector the diagnostic
warning is recorded and building the handlers raises nothing, but the
handlers do not address the root object: `pathWithoutProperty` is the
empty string, so each handler resolves the property named `""` of the
state; on any object state lacking such a property, applying `onLoad`
raises a runtime TypeError (`none`) instead of completing with
`loading = true` at the top level. -/
theorem claim_C6_single_segment (stateSelector : String) (fields : List (String × Val))
    (g : BuiltGroup)
    (hsingle : (jsSplit stateSelector).length = 1)
    (hnoempty : lookupField fields "" = none)
    (hbuild : buildActionGroup stateSelector (.vobj fields) = some g) :
    g.warned = true ∧ g.pathWithoutProperty = "" ∧
    ∀ payload, runOnLoad g (.vobj fields) payload = none := by
  obtain ⟨t, ht⟩ : ∃ t, jsSplit stateSelector = [t] := by
    rcases hjs : jsSplit stateSelector with _ | ⟨a, _ | ⟨b, l⟩⟩
    · rw [hjs] at hsingle
      cases hsingle
    · exact ⟨a, rfl⟩
    · rw [hjs] at hsingle
      simp at hsingle
  rcases Option.map_eq_some'.mp hbuild with ⟨d, hget, hg⟩
  have hwarn : (getNestedStatePathName stateSelector).warned = true := by
    simp [getNestedStatePathName, ht]
  have hpwp : (getNestedStatePathName stateSelector).pathWithoutProperty = "" := by
    simp [getNestedStatePathName, ht, jsJoin]
  subst hg
  refine ⟨hwarn, hpwp, ?_⟩
  intro payload
  show updateNestedState (getNestedStatePathName stateSelector).pathWithoutProperty
    mutateLoad (.vobj fields) = none
  rw [hpwp]
  show ((some (getD fields "")).bind
    fun c => (mutateLoad c).bind (jsSet (.vobj fields) "")) = none
  have hu : getD fields "" = .vundefined := by
    simp [getD, hnoempty]
  rw [hu]
  rfl

/-- Witness for the amended claim C6 at the concrete selector `"list"`. -/
theorem claim_C6_single_segment_witness :
    runOnLoad ⟨"list", "list", "", true, .vobj [("data", .varr []),
        ("loading", .vbool false), ("errors", .varr [])]⟩
      (.vobj [("list", .vobj [("data", .varr []), ("loading", .vbool false),
        ("errors", .varr [])])]) .vnull = none :=
  (claim_C6_single_segment "list"
    [("list", .vobj [("data", .varr []), ("loading", .vbool false),
      ("errors", .varr [])])]
    _ (by decide) rfl rfl).2.2 .vnull

/-- Claim C4: the end-to-end list scenario — build on
`{list: {data: [], loading: false, errors: []}}` with path `"list.data"`,
then load, then loadSuccess with `[1,2,3]`, then reset, producing exactly
the three documented states and returning to the initial one. -/
theorem claim_C4_end_to_end :
    buildActionGroup "list.data"
      (.vobj [("list", .vobj [("data", .varr []), ("loading", .vbool false),
        ("errors", .varr [])])]) =
      some ⟨"data", "list", "list", false, .varr []⟩ ∧
    runOnLoad ⟨"data", "list", "list", false, .varr []⟩
      (.vobj [("list", .vobj [("data", .varr []), ("loading", .vbool false),
        ("errors", .varr [])])]) .vnull =
      some (.vobj [("list", .vobj [("data", .varr []), ("loading", .vbool true),
        ("errors", .varr [])])]) ∧
    runOnLoadSuccess none ⟨"data", "list", "list", false, .varr []⟩
      (.vobj [("list", .vobj [("data", .varr []), ("loading", .vbool true),
        ("errors", .varr [])])]) (.varr [.vnum 1, .vnum 2, .vnum 3]) =
      some (.vobj [("list", .vobj [("data", .varr [.vnum 1, .vnum 2, .vnum 3]),
        ("loading", .vbool false), ("errors", .varr [])])]) ∧
    runOnReset ⟨"data", "list", "list", false, .varr []⟩
      (.vobj [("list", .vobj [("data", .varr [.vnum 1, .vnum 2, .vnum 3]),
        ("loading", .vbool false), ("errors", .varr [])])]) .vnull =
      some (.vobj [("list", .vobj [("data", .varr []), ("loading", .vbool false),
        ("errors", .varr [])])]) :=
  ⟨rfl, rfl, rfl, rfl⟩

theorem lookupDH_setField_self (fields : List (String × HVal)) (k : String) (x : HVal) :
    lookupDH (setField fields k x) k = x := by
  simp [lookupDH, lookupField_setField_self]

/-- Freshness of the finalized chain: after a successful heap-aware update
whose mutation stamps the container with identity `freshId + length`, the
node at every chain position `j` of the result is an object with the fresh
identity `freshId + j`. -/
theorem updateSpineH_fresh {segments : List String} {mutate : HVal → Option HVal}
    {v v2 : HVal} {freshId : Nat}
    (hmut : ∀ c c2, mutate c = some c2 →
      ∃ fields2, c2 = .hobj (freshId + segments.length) fields2)
    (h : updateSpineH segments mutate v freshId = some v2) :
    ∀ j, j ≤ segments.length →
      ∃ fields2, nodeAtH (segments.take j) v2 = some (.hobj (freshId + j) fields2) := by
  induction segments generalizing v v2 freshId with
  | nil =>
    intro j hj
    have hj0 : j = 0 := by simpa using hj
    subst hj0
    obtain ⟨fields2, rfl⟩ := hmut v v2 h
    exact ⟨fields2, rfl⟩
  | cons k rest ih =>
    intro j hj
    cases v with
    | hobj i fields =>
      simp only [updateSpineH, Option.map_eq_some'] at h
      obtain ⟨c2, hinner, rfl⟩ := h
      cases j with
      | zero => exact ⟨setField fields k c2, rfl⟩
      | succ j2 =>
        have hmut2 : ∀ c c3, mutate c = some c3 →
            ∃ fields3, c3 = .hobj ((freshId + 1) + rest.length) fields3 := by
          intro c c3 hc
          obtain ⟨fields3, hf⟩ := hmut c c3 hc
          refine ⟨fields3, ?_⟩
          rw [hf]
          congr 1
          simp [List.length_cons]
          omega
        have hj2 : j2 ≤ rest.length := by
          simp [List.length_cons] at hj
          omega
        obtain ⟨fields2, hnode⟩ := ih hmut2 hinner j2 hj2
        refine ⟨fields2, ?_⟩
        show nodeAtH (rest.take j2) (lookupDH (setField fields k c2) k) =
          some (.hobj (freshId + (j2 + 1)) fields2)
        rw [lookupDH_setField_self, hnode]
        congr 2
        omega
    | hundefined => simp [updateSpineH] at h
    | hnull => simp [updateSpineH] at h
    | hbool b => simp [updateSpineH] at h
    | hnum n => simp [updateSpineH] at h
    | hstr s => simp [updateSpineH] at h
    | harr i xs => simp [updateSpineH] at h

/-- The identity of any object sitting at a chain position of a state all
of whose chain identities are below `n` is itself below `n`. -/
theorem spineIdsBelow_bound {n : Nat} {segments : List String} {v : HVal}
    (hb : spineIdsBelow n segments v = true) :
    ∀ j, j ≤ segments.length → ∀ i fields,
      nodeAtH (segments.take j) v = some (.hobj i fields) → i < n := by
  induction segments generalizing v with
  | nil =>
    intro j hj i fields hnode
    have hj0 : j = 0 := by simpa using hj
    subst hj0
    simp only [List.take, nodeAtH, Option.some.injEq] at hnode
    subst hnode
    simpa [spineIdsBelow] using hb
  | cons k rest ih =>
    intro j hj i fields hnode
    cases j with
    | zero =>
      simp only [List.take, nodeAtH, Option.some.injEq] at hnode
      subst hnode
      simp only [spineIdsBelow, Bool.and_eq_true, decide_eq_true_eq] at hb
      exact hb.1
    | succ j2 =>
      cases v with
      | hobj i0 fields0 =>
        simp only [spineIdsBelow, Bool.and_eq_true, decide_eq_true_eq] at hb
        have hj2 : j2 ≤ rest.length := by
          simp [List.length_cons] at hj
          omega
        exact ih hb.2 j2 hj2 i fields hnode
      | hundefined => simp [nodeAtH] at hnode
      | hnull => simp [nodeAtH] at hnode
      | hbool b => simp [nodeAtH] at hnode
      | hnum n2 => simp [nodeAtH] at hnode
      | hstr s => simp [nodeAtH] at hnode
      | harr i0 xs => simp [nodeAtH] at hnode

/-- After a successful heap-aware update, the result differs from any
state whose chain identities are all older than the fresh supply, at every
chain position: the result's node there is a freshly allocated object. -/
theorem updateSpineH_ne_old {segments : List String} {mutate : HVal → Option HVal}
    {s v v2 : HVal} {freshId : Nat}
    (hmut : ∀ c c2, mutate c = some c2 →
      ∃ fields2, c2 = .hobj (freshId + segments.length) fields2)
    (h : updateSpineH segments mutate v freshId = some v2)
    (hb : spineIdsBelow freshId segments s = true) :
    ∀ j, j ≤ segments.length →
      nodeAtH (segments.take j) v2 ≠ nodeAtH (segments.take j) s := by
  intro j hj he
  obtain ⟨fields2, hnew⟩ := updateSpineH_fresh hmut h j hj
  rw [hnew] at he
  have hbound := spineIdsBelow_bound hb j hj (freshId + j) fields2 he.symm
  omega

theorem mutateLoadH_stamp (m : Nat) :
    ∀ c c2, mutateLoadH m c = some c2 → ∃ fields2, c2 = .hobj m fields2 := by
  intro c c2 h
  cases c with
  | hobj i fields =>
    simp only [mutateLoadH, Option.some.injEq] at h
    exact ⟨_, h.symm⟩
  | hundefined => simp [mutateLoadH] at h
  | hnull => simp [mutateLoadH] at h
  | hbool b => simp [mutateLoadH] at h
  | hnum n => simp [mutateLoadH] at h
  | hstr s => simp [mutateLoadH] at h
  | harr i xs => simp [mutateLoadH] at h

theorem mutateSuccessH_stamp (reducerFunction : Option (HVal → HVal → HVal))
    (propertyName : String) (data : HVal) (m : Nat) :
    ∀ c c2, mutateSuccessH reducerFunction propertyName data m c = some c2 →
      ∃ fields2, c2 = .hobj m fields2 := by
  intro c c2 h
  cases c with
  | hobj i fields =>
    simp only [mutateSuccessH, Option.some.injEq] at h
    exact ⟨_, h.symm⟩
  | hundefined => simp [mutateSuccessH] at h
  | hnull => simp [mutateSuccessH] at h
  | hbool b => simp [mutateSuccessH] at h
  | hnum n => simp [mutateSuccessH] at h
  | hstr s => simp [mutateSuccessH] at h
  | harr i xs => simp [mutateSuccessH] at h

theorem mutateFailureH_stamp (errors : HVal) (m : Nat) :
    ∀ c c2, mutateFailureH errors m c = some c2 → ∃ fields2, c2 = .hobj m fields2 := by
  intro c c2 h
  cases c with
  | hobj i fields =>
    simp only [mutateFailureH, Option.some.injEq] at h
    exact ⟨_, h.symm⟩
  | hundefined => simp [mutateFailureH] at h
  | hnull => simp [mutateFailureH] at h
  | hbool b => simp [mutateFailureH] at h
  | hnum n => simp [mutateFailureH] at h
  | hstr s => simp [mutateFailureH] at h
  | harr i xs => simp [mutateFailureH] at h

theorem mutateResetH_stamp (propertyName : String) (initialData : HVal) (m : Nat) :
    ∀ c c2, mutateResetH propertyName initialData m c = some c2 →
      ∃ fields2, c2 = .hobj m fields2 := by
  intro c c2 h
  cases c with
  | hobj i fields =>
    simp only [mutateResetH, Option.some.injEq] at h
    exact ⟨_, h.symm⟩
  | hundefined => simp [mutateResetH] at h
  | hnull => simp [mutateResetH] at h
  | hbool b => simp [mutateResetH] at h
  | hnum n => simp [mutateResetH] at h
  | hstr s => simp [mutateResetH] at h
  | harr i xs => simp [mutateResetH] at h

/-- Claim C1, in the heap-aware model of the immer copy-on-write mechanism
(see `updateSpineH`): for each of the four handlers, any state whose chain
allocation identities all precede the fresh-identity supply `freshId`, and
any payload, a completed transition returns a state that is reference-
unequal (`!==`) to the input state at every container level from the
addressed container up to the root — the result's node at each chain
position is a freshly allocated object, so it cannot be any node of the
input.  That the input state itself is left unchanged (deep-equal to its
pre-call value) holds by construction in this embedding: the handlers are
pure functions that never rewrite an existing allocation, only build new
ones, which is exactly the draft-finalization contract the specification
ascribes to the copy-on-write mechanism. -/
theorem claim_C1_handlers_fresh :
    (∀ (pathWithoutProperty : String) (s : HVal) (freshId : Nat) (s2 : HVal),
      runOnLoadH pathWithoutProperty s freshId = some s2 →
      spineIdsBelow freshId (jsSplit pathWithoutProperty) s = true →
      ∀ j, j ≤ (jsSplit pathWithoutProperty).length →
        nodeAtH ((jsSplit pathWithoutProperty).take j) s2 ≠
          nodeAtH ((jsSplit pathWithoutProperty).take j) s) ∧
    (∀ (reducerFunction : Option (HVal → HVal → HVal))
        (pathWithoutProperty propertyName : String) (s data : HVal) (freshId : Nat)
        (s2 : HVal),
      runOnLoadSuccessH reducerFunction pathWithoutProperty propertyName s data freshId =
        some s2 →
      spineIdsBelow freshId (jsSplit pathWithoutProperty) s = true →
      ∀ j, j ≤ (jsSplit pathWithoutProperty).length →
        nodeAtH ((jsSplit pathWithoutProperty).take j) s2 ≠
          nodeAtH ((jsSplit pathWithoutProperty).take j) s) ∧
    (∀ (pathWithoutProperty : String) (s errors : HVal) (freshId : Nat) (s2 : HVal),
      runOnLoadFailureH pathWithoutProperty s errors freshId = some s2 →
      spineIdsBelow freshId (jsSplit pathWithoutProperty) s = true →
      ∀ j, j ≤ (jsSplit pathWithoutProperty).length →
        nodeAtH ((jsSplit pathWithoutProperty).take j) s2 ≠
          nodeAtH ((jsSplit pathWithoutProperty).take j) s) ∧
    (∀ (pathWithoutProperty propertyName : String) (initialData s : HVal) (freshId : Nat)
        (s2 : HVal),
      runOnResetH pathWithoutProperty propertyName initialData s freshId = some s2 →
      spineIdsBelow freshId (jsSplit pathWithoutProperty) s = true →
      ∀ j, j ≤ (jsSplit pathWithoutProperty).length →
        nodeAtH ((jsSplit pathWithoutProperty).take j) s2 ≠
          nodeAtH ((jsSplit pathWithoutProperty).take j) s) := by
  refine ⟨?_, ?_, ?_, ?_⟩
  · intro pathWithoutProperty s freshId s2 hrun hb
    exact updateSpineH_ne_old (mutateLoadH_stamp _) hrun hb
  · intro reducerFunction pathWithoutProperty propertyName s data freshId s2 hrun hb
    exact updateSpineH_ne_old (mutateSuccessH_stamp _ _ _ _) hrun hb
  · intro pathWithoutProperty s errors freshId s2 hrun hb
    exact updateSpineH_ne_old (mutateFailureH_stamp _ _) hrun hb
  · intro pathWithoutProperty propertyName initialData s freshId s2 hrun hb
    exact updateSpineH_ne_old (mutateResetH_stamp _ _ _) hrun hb

/-- Witness for claim C1: all four handlers applied to a concrete
two-level state with identities 0, 1, 2 and fresh supply 10, compared at
the addressed container (chain position 1). -/
theorem claim_C1_handlers_fresh_witness :
    nodeAtH ["a"] (.hobj 10 [("a", .hobj 11 [("data", .hnull),
        ("loading", .hbool true), ("errors", .harr 12 [])])]) ≠
      nodeAtH ["a"] (.hobj 0 [("a", .hobj 1 [("data", .hnull),
        ("loading", .hbool false), ("errors", .harr 2 [])])]) ∧
    nodeAtH ["a"] (.hobj 10 [("a", .hobj 11 [("data", .hnum 5),
        ("loading", .hbool false), ("errors", .harr 12 [])])]) ≠
      nodeAtH ["a"] (.hobj 0 [("a", .hobj 1 [("data", .hnull),
        ("loading", .hbool false), ("errors", .harr 2 [])])]) ∧
    nodeAtH ["a"] (.hobj 10 [("a", .hobj 11 [("data", .hnull),
        ("loading", .hbool false), ("errors", .hstr "x")])]) ≠
      nodeAtH ["a"] (.hobj 0 [("a", .hobj 1 [("data", .hnull),
        ("loading", .hbool false), ("errors", .harr 2 [])])]) ∧
    nodeAtH ["a"] (.hobj 10 [("a", .hobj 11 [("data", .hnull),
        ("loading", .hbool false), ("errors", .harr 12 [])])]) ≠
      nodeAtH ["a"] (.hobj 0 [("a", .hobj 1 [("data", .hnull),
        ("loading", .hbool false), ("errors", .harr 2 [])])]) :=
  ⟨claim_C1_handlers_fresh.1 "a"
      (.hobj 0 [("a", .hobj 1 [("data", .hnull), ("loading", .hbool false),
        ("errors", .harr 2 [])])]) 10 _ rfl (by decide) 1 (by decide),
    (claim_C1_handlers_fresh.2.1 none "a" "data"
      (.hobj 0 [("a", .hobj 1 [("data", .hnull), ("loading", .hbool false),
        ("errors", .harr 2 [])])]) (.hnum 5) 10 _ rfl (by decide) 1 (by decide)),
    (claim_C1_handlers_fresh.2.2.1 "a"
      (.hobj 0 [("a", .hobj 1 [("data", .hnull), ("loading", .hbool false),
        ("errors", .harr 2 [])])]) (.hstr "x") 10 _ rfl (by decide) 1 (by decide)),
    (claim_C1_handlers_fresh.2.2.2 "a" "data" .hnull
      (.hobj 0 [("a", .hobj 1 [("data", .hnull), ("loading", .hbool false),
        ("errors", .harr 2 [])])]) 10 _ rfl (by decide) 1 (by decide))⟩

end NgrxOrchestrator
